import Mathlib

/-!
Shallow embedding of the skip-mev/vote-ext-oracle-demo ABCI++ oracle core
(`abci/vote_exts.go`, `abci/proposal.go`, `keepers/keeper.go`).

Conventions of the embedding:
* `sdk.Dec` (cosmos `LegacyDec`) is an arbitrary-precision fixed-point decimal
  with 18 fractional digits stored as a scaled big integer.  We model it as a
  structure holding that scaled integer value.  `Add` and `MulInt64` are exact
  on the scaled value; `QuoInt64` is `big.Int.Quo` (truncated division), which
  PANICS in Go when the divisor is zero — modelled as `Option` returning `none`.
* Go maps are modelled as association lists with `List.lookup`; insertion
  replaces the first matching key or appends.
* Go `int64` fields (heights, voting power) are modelled as `Int`; int64
  wrap-around is out of scope for the claims treated here.
* JSON bytes handled opaquely by the handlers (`json.Marshal`/`json.Unmarshal`
  of a vote extension or injected tx) are modelled by an inductive that is
  either a well-formed payload or malformed bytes; the codec itself is modelled
  in depth further down (wire form `OVEWire`) for the round-trip property.
* A Go runtime panic is a distinct outcome constructor, never a normal return.
-/

/-- Model of `sdk.Dec` (`LegacyDec`): the scaled integer value `price × 10^18`. -/
structure Dec where
  val : Int
deriving DecidableEq, Repr

/-- `sdk.ZeroDec()`. -/
def ZeroDec : Dec := ⟨0⟩

/-- `LegacyDec.Add`: exact big-integer addition of the scaled values. -/
def Dec.Add (d e : Dec) : Dec := ⟨d.val + e.val⟩

/-- `LegacyDec.MulInt64`: multiplies the scaled value by an integer (exact). -/
def Dec.MulInt64 (d : Dec) (i : Int) : Dec := ⟨d.val * i⟩

/-- `LegacyDec.QuoInt64`: `new(big.Int).Quo(d.i, i)` — truncated division.
`big.Int.Quo` panics with a division-by-zero runtime error when `i = 0`;
the panic is modelled as `none`. -/
def Dec.QuoInt64 (d : Dec) (i : Int) : Option Dec :=
  if i = 0 then none else some ⟨d.val.tdiv i⟩

/-- `keepers.CurrencyPair`. -/
structure CurrencyPair where
  Base : String
  Quote : String
deriving DecidableEq, Repr

/-- `CurrencyPair.String()`: canonical key `base+quote`, no separator. -/
def CurrencyPair.toString (cp : CurrencyPair) : String := cp.Base ++ cp.Quote

/-- `keepers.TickerPrice`. -/
structure TickerPrice where
  Price : Dec
  Volume : Dec
deriving DecidableEq, Repr

/-- `keepers.CandlePrice`. -/
structure CandlePrice where
  Price : Dec
  Volume : Dec
  TimeStamp : Int
deriving DecidableEq, Repr

/-- `FauxOracleKeeper.GetSupportedPairs`: constantly `[{ATOM, USD}]` in the
source. -/
def GetSupportedPairs : List CurrencyPair := [⟨"ATOM", "USD"⟩]

/-- `abci.OracleVoteExtension`: height plus asset-base → price map. -/
structure OracleVoteExtension where
  Height : Int
  Prices : List (String × Dec)
deriving DecidableEq, Repr

/-- Opaque model of the byte payload carried as a vote extension: either the
JSON encoding of a well-formed `OracleVoteExtension` or malformed bytes.  The
JSON codec round-trips (proved on the refined wire model below), so
`json.Unmarshal` recovers exactly the encoded value on the well-formed case. -/
inductive VEBytes where
  | valid (ve : OracleVoteExtension)
  | malformed
deriving DecidableEq, Repr

/-- `json.Unmarshal` of a vote extension payload into `OracleVoteExtension`. -/
def jsonUnmarshalOVE : VEBytes → Option OracleVoteExtension
  | .valid ve => some ve
  | .malformed => none

/-- `abci.Validator` (address plus voting power, the two fields used). -/
structure Validator where
  Address : String
  Power : Int
deriving DecidableEq, Repr

/-- `abci.ExtendedVoteInfo`: one validator's vote with its extension bytes. -/
structure ExtendedVoteInfo where
  Validator : Validator
  VoteExtension : VEBytes
deriving DecidableEq, Repr

/-- `abci.ExtendedCommitInfo` (the `Votes` field, the only one consumed). -/
structure ExtendedCommitInfo where
  Votes : List ExtendedVoteInfo
deriving DecidableEq, Repr

/-- `abci.StakeWeightedPrices`: the injected proposal record. -/
structure StakeWeightedPrices where
  StakeWeightedPrices : List (String × Dec)
  ExtendedCommitInfo : ExtendedCommitInfo
deriving DecidableEq, Repr

/-- Opaque model of the bytes of a JSON-encoded `StakeWeightedPrices` tx. -/
inductive SWPBytes where
  | valid (s : StakeWeightedPrices)
  | malformed
deriving DecidableEq, Repr

/-- `json.Unmarshal` of the injected tx bytes. -/
def jsonUnmarshalSWP : SWPBytes → Option StakeWeightedPrices
  | .valid s => some s
  | .malformed => none

/-- `json.Marshal` of `StakeWeightedPrices`.  Marshalling this struct type
cannot fail in Go (no unsupported or cyclic values), so the model is total. -/
def jsonMarshalSWP (s : StakeWeightedPrices) : SWPBytes := .valid s

/-- Outcome of `computeStakeWeightedOraclePrices`: a successful map, the
`(nil, err)` return on a vote-extension decode failure, or the runtime panic
raised by `QuoInt64` when the total stake is zero. -/
inductive AggOutcome where
  | ok (prices : List (String × Dec))
  | errDecode
  | panicDivByZero
deriving DecidableEq, Repr

/-- One supported-pair accumulation step of the inner
`for base, price := range voteExt.Prices` loop:
`stakeWeightedPrices[base] = stakeWeightedPrices[base].Add(price.MulInt64(power))`,
guarded by presence of `base` in the map (absent keys are left untouched). -/
def addToBase (m : List (String × Dec)) (base : String) (amt : Dec) :
    List (String × Dec) :=
  m.map fun kv => if kv.1 = base then (kv.1, kv.2.Add amt) else kv

/-- Accumulate one decoded vote extension's prices, each weighted by the
validator's power, into the running per-base totals. -/
def applyVotePrices (power : Int) (m : List (String × Dec))
    (prices : List (String × Dec)) : List (String × Dec) :=
  prices.foldl (fun acc kv => addToBase acc kv.1 (kv.2.MulInt64 power)) m

/-- The final `for base, price := range stakeWeightedPrices` loop dividing each
running total by the total stake.  With a zero total stake and at least one
entry, the first `QuoInt64` call panics. -/
def finalizeQuo (m : List (String × Dec)) (totalStake : Int) : AggOutcome :=
  match m.mapM (fun kv => (kv.2.QuoInt64 totalStake).map fun q => (kv.1, q)) with
  | none => .panicDivByZero
  | some l => .ok l

/-- The vote loop of `computeStakeWeightedOraclePrices`: decode each vote
extension (returning `(nil, err)` on the first failure), accumulate total
stake and weighted prices, then finalize by division. -/
def swpLoop : List ExtendedVoteInfo → Int → List (String × Dec) → AggOutcome
  | [], totalStake, acc => finalizeQuo acc totalStake
  | v :: vs, totalStake, acc =>
    match jsonUnmarshalOVE v.VoteExtension with
    | none => .errDecode
    | some voteExt =>
      swpLoop vs (totalStake + v.Validator.Power)
        (applyVotePrices v.Validator.Power acc voteExt.Prices)

/-- `ProposalHandler.computeStakeWeightedOraclePrices`: initialize each
supported base to `ZeroDec`, run the vote loop, divide by total stake. -/
def computeStakeWeightedOraclePrices (ci : ExtendedCommitInfo) : AggOutcome :=
  swpLoop ci.Votes 0 (GetSupportedPairs.map fun pair => (pair.Base, ZeroDec))

/-- Outcome of `PrepareProposal` (the SDK v0.47 handler returns only a
response; a Go panic escaping the handler is a distinct outcome). -/
inductive PrepareOutcome where
  | resp (Txs : List SWPBytes)
  | panicked
deriving DecidableEq, Repr

/-- `ProposalHandler.PrepareProposal` (final revision): on aggregation failure
return the empty response; otherwise inject the encoded record as the sole tx. -/
def prepareProposal (localLastCommit : ExtendedCommitInfo) : PrepareOutcome :=
  match computeStakeWeightedOraclePrices localLastCommit with
  | .errDecode => .resp []
  | .panicDivByZero => .panicked
  | .ok stakeWeightedPrices =>
    let injectedVoteExtTx : StakeWeightedPrices :=
      ⟨stakeWeightedPrices, localLastCommit⟩
    .resp [jsonMarshalSWP injectedVoteExtTx]

/-- `compareOraclePrices` as written in the source: unconditionally `nil`
(no comparison is performed). -/
def compareOraclePrices (_p1 _p2 : List (String × Dec)) : Except Unit Unit :=
  .ok ()

/-- Outcome of `ProcessProposal`: accept (carrying the prices persisted via
`SetOraclePrices`, if any), reject, or a panic escaping the handler. -/
inductive ProcessOutcome where
  | accept (persisted : Option (List (String × Dec)))
  | reject
  | panicked
deriving DecidableEq, Repr

/-- `ProposalHandler.ProcessProposal` (final revision). -/
def processProposal (txs : List SWPBytes) : ProcessOutcome :=
  match txs with
  | [] => .accept none
  | tx :: _ =>
    match jsonUnmarshalSWP tx with
    | none => .reject
    | some injectedVoteExtTx =>
      match computeStakeWeightedOraclePrices injectedVoteExtTx.ExtendedCommitInfo with
      | .errDecode => .reject
      | .panicDivByZero => .panicked
      | .ok stakeWeightedPrices =>
        match compareOraclePrices injectedVoteExtTx.StakeWeightedPrices
            stakeWeightedPrices with
        | .error _ => .reject
        | .ok _ => .accept (some stakeWeightedPrices)

/-- Outcome of `VerifyVoteExtensionHandler`: the three distinct error returns
of the source handler, or an `ACCEPT` response. -/
inductive VerifyOutcome where
  | accept
  | errDecode
  | errHeightMismatch (expected got : Int)
  | errVerifyPrices
deriving DecidableEq, Repr

/-- `VoteExtHandler.verifyPrices` as written in the source: a declared stub
returning `nil` unconditionally — the tolerance-band / supported-base sanity
check is a pluggable policy function (spec section 1 and section 9 leave its
formula unspecified). -/
def verifyPrices_src (_prices : List (String × Dec)) : Except Unit Unit :=
  .ok ()

/-- `VoteExtHandler.VerifyVoteExtensionHandler`, parametrized by the plugged
price-sanity policy (the source instantiates it with `verifyPrices_src`):
unmarshal (error on malformed bytes), check the declared height against the
requested height, then run the sanity check; accept only if all succeed. -/
def verifyVoteExtensionHandler
    (verifyPrices : List (String × Dec) → Except Unit Unit)
    (reqHeight : Int) (reqVoteExtension : VEBytes) : VerifyOutcome :=
  match jsonUnmarshalOVE reqVoteExtension with
  | none => .errDecode
  | some voteExt =>
    if voteExt.Height ≠ reqHeight then
      .errHeightMismatch reqHeight voteExt.Height
    else
      match verifyPrices voteExt.Prices with
      | .error _ => .errVerifyPrices
      | .ok _ => .accept

/-- Replace the value at the first occurrence of a key, or append a fresh
entry — the behaviour of a Go map assignment `m[k] = v` observed through
lookups. -/
def assocSet {α : Type} (m : List (String × α)) (k : String) (v : α) :
    List (String × α) :=
  match m with
  | [] => [(k, v)]
  | kv :: t => if kv.1 = k then (k, v) :: t else kv :: assocSet t k v

/-- Apply a function to the value stored at a key (no-op if absent) — a Go map
read-modify-write `m[k] = f(m[k])` on a key known to be present. -/
def assocModify {α : Type} (m : List (String × α)) (k : String) (f : α → α) :
    List (String × α) :=
  match m with
  | [] => []
  | kv :: t => if kv.1 = k then (kv.1, f kv.2) :: t else kv :: assocModify t k f

/-- `abci.ProviderAggregator`: the two nested provider → base maps.  The
`sync.Mutex` serializes calls; each call is modelled as one atomic transition. -/
structure ProviderAggregator where
  providerPrices : List (String × List (String × TickerPrice))
  providerCandles : List (String × List (String × List CandlePrice))
deriving DecidableEq, Repr

/-- `NewProviderAggregator()`. -/
def NewProviderAggregator : ProviderAggregator := ⟨[], []⟩

/-- The lazy sub-map creation `if _, ok := m[name]; !ok { m[name] = make(...) }`. -/
def ensureKey {α : Type} (m : List (String × List (String × α))) (k : String) :
    List (String × List (String × α)) :=
  if (m.lookup k).isSome then m else m ++ [(k, [])]

/-- `ProviderAggregator.SetProviderTickerPricesAndCandles`: lazily create the
provider's sub-maps, store the ticker price under `provider -> pair.Base` when
the pair's canonical string key is in `prices`, likewise for candles, and
return whether at least one of the two was stored. -/
def SetProviderTickerPricesAndCandles (p : ProviderAggregator)
    (providerName : String) (prices : List (String × TickerPrice))
    (candles : List (String × List CandlePrice)) (pair : CurrencyPair) :
    ProviderAggregator × Bool :=
  let pp0 := ensureKey p.providerPrices providerName
  let pc0 := ensureKey p.providerCandles providerName
  let pricesOk := (prices.lookup pair.toString).isSome
  let pp1 :=
    match prices.lookup pair.toString with
    | some tp => assocModify pp0 providerName fun inner => assocSet inner pair.Base tp
    | none => pp0
  let candlesOk := (candles.lookup pair.toString).isSome
  let pc1 :=
    match candles.lookup pair.toString with
    | some cp => assocModify pc0 providerName fun inner => assocSet inner pair.Base cp
    | none => pc0
  (⟨pp1, pc1⟩, pricesOk || candlesOk)

/-- Lookup through both levels of an aggregated provider map. -/
def lookup2 {α : Type} (m : List (String × List (String × α)))
    (k1 k2 : String) : Option α :=
  (m.lookup k1).bind fun inner => inner.lookup k2

/-- Outcome of `ExtendVoteHandler`'s sequential tail (after the concurrent
provider fetch fork-join): either the response carrying the serialized vote
extension together with the updated height-indexed price cache, or one of the
`(nil, err)` returns. -/
inductive ExtendOutcome where
  | resp (voteExtension : VEBytes) (computedPricesCache : List (Int × List (String × Dec)))
  | errCompute
  | errMissingPrice (base : String)
deriving DecidableEq, Repr

/-- The `requiredRates` set built by the provider loop: the union — in
first-occurrence order — of the base assets of every provider's configured
pairs. -/
def requiredRatesOf (providerPairs : List (String × List CurrencyPair)) :
    List String :=
  ((providerPairs.flatMap fun pr => pr.2).map fun pair => pair.Base).eraseDups

/-- `VoteExtHandler.computeOraclePrices` as written in the source: a declared
stub whose named return values are both zero, i.e. a `nil` map and a `nil`
error — the TVWAP/VWAP formula is a pluggable policy function. -/
def computeOraclePrices_src (_agg : ProviderAggregator) :
    Except Unit (List (String × Dec)) :=
  .ok []

/-- `VoteExtHandler.ExtendVoteHandler`, parametrized by the plugged
canonical-price policy `computeOraclePrices` (source instantiation:
`computeOraclePrices_src`) and by the aggregator state left by the concurrent
provider fetches.  It builds `requiredRates`, computes the canonical prices,
fails if the computation errors or any required base is missing, and otherwise
returns the marshalled `OracleVoteExtension` after caching the computed map
under the request height. -/
def extendVoteHandler (providerPairs : List (String × List CurrencyPair))
    (computeOraclePrices : ProviderAggregator → Except Unit (List (String × Dec)))
    (computedPricesCache : List (Int × List (String × Dec)))
    (providerAgg : ProviderAggregator) (reqHeight : Int) : ExtendOutcome :=
  let requiredRates := requiredRatesOf providerPairs
  match computeOraclePrices providerAgg with
  | .error _ => .errCompute
  | .ok computedPrices =>
    match requiredRates.find? (fun base => (computedPrices.lookup base).isNone) with
    | some base => .errMissingPrice base
    | none =>
      let voteExt : OracleVoteExtension := ⟨reqHeight, computedPrices⟩
      .resp (.valid voteExt) ((reqHeight, computedPrices) :: computedPricesCache)

/-!  Refined model of the attestation codec (`json.Marshal`/`json.Unmarshal`
of `OracleVoteExtension`).  Go's `encoding/json` emits the struct as an object
with the `Height` field as a JSON number and `Prices` as an object whose keys
are sorted in ascending order; each `sdk.Dec` value is rendered by
`LegacyDec.MarshalJSON` as a quoted decimal string: optional sign, the integer
part, a dot, and exactly 18 fractional digits.  The model keeps the JSON tree
structure (`OVEWire`) and renders each decimal at digit granularity
(`DecText`); the remaining byte-level rendering of the tree is the standard
library's and is injective on these shapes. -/

/-- The scaling factor of `sdk.Dec`: `10^18`. -/
def decScale : Nat := 10 ^ 18

/-- The textual form of one marshalled `sdk.Dec`: sign flag, then the base-10
digits (little-endian) of the integer part and of the 18-digit fractional
part. -/
structure DecText where
  neg : Bool
  intDigits : List Nat
  fracDigits : List Nat
deriving DecidableEq, Repr

/-- Render a `Dec` the way `LegacyDec.MarshalJSON` does: sign of the scaled
value, integer part `|d| / 10^18`, and the fractional remainder zero-padded to
exactly 18 digits. -/
def Dec.marshalText (d : Dec) : DecText :=
  let a := d.val.natAbs
  let frac := Nat.digits 10 (a % decScale)
  { neg := decide (d.val < 0)
  , intDigits := Nat.digits 10 (a / decScale)
  , fracDigits := frac ++ List.replicate (18 - frac.length) 0 }

/-- Parse a marshalled decimal back into a `Dec`, the way
`LegacyDec.UnmarshalJSON` reads the quoted string: exactly 18 fractional
digits are required; the value is `±(int · 10^18 + frac)`. -/
def DecText.parseDec (t : DecText) : Option Dec :=
  if t.fracDigits.length = 18 then
    let n : Nat := Nat.ofDigits 10 t.intDigits * decScale + Nat.ofDigits 10 t.fracDigits
    some ⟨if t.neg then -(n : Int) else (n : Int)⟩
  else none

/-- Insert an entry into a key-sorted association list (ascending keys). -/
def insertSorted {α : Type} (kv : String × α) :
    List (String × α) → List (String × α)
  | [] => [kv]
  | x :: t => if kv.1 ≤ x.1 then kv :: x :: t else x :: insertSorted kv t

/-- Sort an association list by key, as `encoding/json` sorts map keys. -/
def sortKeys {α : Type} (l : List (String × α)) : List (String × α) :=
  l.foldr insertSorted []

/-- The JSON tree of one marshalled `OracleVoteExtension`: the `Height` number
and the `Prices` object's entries in the emitted (sorted) key order. -/
structure OVEWire where
  height : Int
  prices : List (String × DecText)
deriving DecidableEq, Repr

/-- `json.Marshal` of an `OracleVoteExtension`, at tree granularity. -/
def marshalOVEWire (v : OracleVoteExtension) : OVEWire :=
  { height := v.Height
  , prices := (sortKeys v.Prices).map fun kv => (kv.1, kv.2.marshalText) }

/-- Parse the entries of the `Prices` object, failing if any decimal is
malformed. -/
def parseEntries : List (String × DecText) → Option (List (String × Dec))
  | [] => some []
  | (k, t) :: rest =>
    match t.parseDec, parseEntries rest with
    | some d, some r => some ((k, d) :: r)
    | _, _ => none

/-- `json.Unmarshal` of an `OracleVoteExtension`, at tree granularity. -/
def unmarshalOVEWire (w : OVEWire) : Option OracleVoteExtension :=
  (parseEntries w.prices).map fun ps => ⟨w.height, ps⟩

/-! ### Association-list lookup lemmas -/

theorem lookup_assocSet_self {α : Type} (m : List (String × α)) (k : String)
    (v : α) : (assocSet m k v).lookup k = some v := by
  induction m with
  | nil => simp [assocSet, List.lookup]
  | cons kv t ih =>
    by_cases h : kv.1 = k
    · simp [assocSet, h, List.lookup]
    · simp [assocSet, h, List.lookup, beq_eq_false_iff_ne.mpr (Ne.symm h), ih]

theorem lookup_assocModify_self {α : Type} (m : List (String × α)) (k : String)
    (f : α → α) : (assocModify m k f).lookup k = (m.lookup k).map f := by
  induction m with
  | nil => simp [assocModify, List.lookup]
  | cons kv t ih =>
    by_cases h : kv.1 = k
    · subst h; simp [assocModify, List.lookup]
    · simp [assocModify, h, List.lookup, beq_eq_false_iff_ne.mpr (Ne.symm h), ih]

theorem lookup_ensureKey_self {α : Type} (m : List (String × List (String × α)))
    (k : String) : (ensureKey m k).lookup k = some ((m.lookup k).getD []) := by
  unfold ensureKey
  cases h : m.lookup k with
  | some inner => simp [h]
  | none => simp [h, List.lookup_append, List.lookup]

theorem mem_fst_of_lookup_isSome {α : Type} {m : List (String × α)} {k : String}
    (h : (m.lookup k).isSome) : ∃ kv ∈ m, kv.1 = k := by
  induction m with
  | nil => simp [List.lookup] at h
  | cons kv t ih =>
    by_cases hk : k = kv.1
    · exact ⟨kv, List.mem_cons_self kv t, hk.symm⟩
    · rw [List.lookup_cons] at h
      simp only [beq_eq_false_iff_ne.mpr hk] at h
      obtain ⟨kv2, hm, he⟩ := ih h
      exact ⟨kv2, List.mem_cons_of_mem kv hm, he⟩

/-! ### Concrete scenario values -/

/-- A price given in hundredths, in `Dec` scale: `n/100 × 10^18 = n × 10^16`. -/
def decHundredths (n : Int) : Dec := ⟨n * 10 ^ 16⟩

/-- One vote carrying a well-formed extension attesting a single ATOM price. -/
def scenarioVote (addr : String) (power : Int) (price : Dec) :
    ExtendedVoteInfo :=
  ⟨⟨addr, power⟩, .valid ⟨99, [("ATOM", price)]⟩⟩

/-- The spec's end-to-end commit-info: three validators of power 10 attesting
10.00, 10.20 and 9.80 — honest stake-weighted recomputation yields 10.00. -/
def scenarioCommitInfo : ExtendedCommitInfo :=
  ⟨[scenarioVote "v1" 10 (decHundredths 1000),
    scenarioVote "v2" 10 (decHundredths 1020),
    scenarioVote "v3" 10 (decHundredths 980)]⟩

/-- The proposer's dishonest claimed mapping `{ATOMUSD: 11.00}`. -/
def scenarioClaimedPrices : List (String × Dec) := [("ATOM", decHundredths 1100)]

/-! ### Claim theorems -/

/-- C1: the claim asserts that with zero total accumulated voting power the
stake-weighted aggregation fails closed, returning an error rather than
performing the division by the zero total stake.  The code has no such guard:
on a commit-info with no votes (supported pairs `[ATOM/USD]`, total stake 0)
it reaches `price.QuoInt64(totalStake)` with a zero divisor, and
`big.Int.Quo` panics — the aggregation neither returns an error nor refuses
before the division. -/
theorem C1_zero_total_power_division_panics :
    computeStakeWeightedOraclePrices ⟨[]⟩ = .panicDivByZero := by decide

/-- C2: the claim asserts `ProcessProposal` rejects whenever the recomputed
stake-weighted mapping differs from the proposer's claimed mapping.  In the
code `compareOraclePrices` unconditionally returns `nil`, so on the spec's
end-to-end scenario — claimed `{ATOMUSD: 11.00}` against an embedded
commit-info recomputing to `{ATOMUSD: 10.00}` — the proposal is ACCEPTED and
the recomputed prices are persisted, despite the mismatch. -/
theorem C2_mismatch_is_accepted :
    processProposal [SWPBytes.valid ⟨scenarioClaimedPrices, scenarioCommitInfo⟩]
        = .accept (some [("ATOM", decHundredths 1000)])
    ∧ scenarioClaimedPrices ≠ [("ATOM", decHundredths 1000)] := by decide

/-- C3: `VerifyVoteExtension` — for every plugged price-sanity policy (the
tolerance-band / supported-base check the source leaves as the `verifyPrices`
stub), the handler returns ACCEPT if and only if the bytes deserialize to an
`OracleVoteExtension`, its declared height equals the requested height, and
the sanity policy passes on its price map; on any failure it returns the
corresponding reject verdict (decode error, height-mismatch error, or price
verification error), never accepting. -/
theorem C3_verify_accept_iff
    (verifyPrices : List (String × Dec) → Except Unit Unit)
    (reqHeight : Int) (bz : VEBytes) :
    verifyVoteExtensionHandler verifyPrices reqHeight bz = .accept
      ↔ ∃ ve, jsonUnmarshalOVE bz = some ve ∧ ve.Height = reqHeight
          ∧ verifyPrices ve.Prices = .ok () := by
  cases bz with
  | malformed => simp [verifyVoteExtensionHandler, jsonUnmarshalOVE]
  | valid ve =>
    by_cases h : ve.Height = reqHeight
    · cases hv : verifyPrices ve.Prices with
      | ok u =>
        cases u
        simp [verifyVoteExtensionHandler, jsonUnmarshalOVE, h, hv]
      | error e =>
        cases e
        simp [verifyVoteExtensionHandler, jsonUnmarshalOVE, h, hv]
    · simp [verifyVoteExtensionHandler, jsonUnmarshalOVE, h]

/-- C8: `SetProviderTickerPricesAndCandles` stores the ticker price under
`provider -> pair.Base` exactly when the pair's canonical string key is
present in the price map, likewise the candles, and returns true if and only
if at least one of the two was stored. -/
theorem C8_recordProviderResult_characterization (p : ProviderAggregator)
    (providerName : String) (prices : List (String × TickerPrice))
    (candles : List (String × List CandlePrice)) (pair : CurrencyPair) :
    (SetProviderTickerPricesAndCandles p providerName prices candles pair).2
        = ((prices.lookup pair.toString).isSome
            || (candles.lookup pair.toString).isSome)
    ∧ lookup2 (SetProviderTickerPricesAndCandles p providerName prices candles
          pair).1.providerPrices providerName pair.Base
        = (match prices.lookup pair.toString with
           | some tp => some tp
           | none =>
             ((p.providerPrices.lookup providerName).getD []).lookup pair.Base)
    ∧ lookup2 (SetProviderTickerPricesAndCandles p providerName prices candles
          pair).1.providerCandles providerName pair.Base
        = (match candles.lookup pair.toString with
           | some cp => some cp
           | none =>
             ((p.providerCandles.lookup providerName).getD []).lookup pair.Base) := by
  refine ⟨rfl, ?_, ?_⟩
  · unfold SetProviderTickerPricesAndCandles lookup2
    cases h : prices.lookup pair.toString with
    | some tp =>
      simp [h, lookup_assocModify_self, lookup_ensureKey_self, lookup_assocSet_self]
    | none => simp [h, lookup_ensureKey_self]
  · unfold SetProviderTickerPricesAndCandles lookup2
    cases h : candles.lookup pair.toString with
    | some cp =>
      simp [h, lookup_assocModify_self, lookup_ensureKey_self, lookup_assocSet_self]
    | none => simp [h, lookup_ensureKey_self]

/-- C10: every call to `SetProviderTickerPricesAndCandles` — including calls
returning false — leaves an entry for the provider present in both aggregated
maps (the sub-maps are created before the lookups and never removed), so the
call mutates the aggregator state even when it reports failure. -/
theorem C10_submaps_always_created (p : ProviderAggregator)
    (providerName : String) (prices : List (String × TickerPrice))
    (candles : List (String × List CandlePrice)) (pair : CurrencyPair) :
    ((SetProviderTickerPricesAndCandles p providerName prices candles
        pair).1.providerPrices.lookup providerName).isSome = true
    ∧ ((SetProviderTickerPricesAndCandles p providerName prices candles
        pair).1.providerCandles.lookup providerName).isSome = true
    ∧ (p.providerPrices.lookup providerName = none →
        (SetProviderTickerPricesAndCandles p providerName prices candles
          pair).1 ≠ p) := by
  have hpp : ((SetProviderTickerPricesAndCandles p providerName prices candles
      pair).1.providerPrices.lookup providerName).isSome = true := by
    unfold SetProviderTickerPricesAndCandles
    cases h : prices.lookup pair.toString with
    | some tp => simp [h, lookup_assocModify_self, lookup_ensureKey_self]
    | none => simp [h, lookup_ensureKey_self]
  have hpc : ((SetProviderTickerPricesAndCandles p providerName prices candles
      pair).1.providerCandles.lookup providerName).isSome = true := by
    unfold SetProviderTickerPricesAndCandles
    cases h : candles.lookup pair.toString with
    | some cp => simp [h, lookup_assocModify_self, lookup_ensureKey_self]
    | none => simp [h, lookup_ensureKey_self]
  refine ⟨hpp, hpc, fun hnone heq => ?_⟩
  rw [heq, hnone] at hpp
  simp at hpp

/-- Witness for C10 at a concrete call: recording a pair for which neither a
price nor a candle exists still mutates the empty aggregator (the provider
entry appears), even though the call reports failure. -/
theorem C10_witness :
    (SetProviderTickerPricesAndCandles NewProviderAggregator "binance" [] []
        ⟨"ATOM", "USD"⟩).1 ≠ NewProviderAggregator := by
  have h := C10_submaps_always_created NewProviderAggregator "binance" [] []
    ⟨"ATOM", "USD"⟩
  exact h.2.2 (by decide)

/-- C4: whenever the computed price map lacks at least one required base
asset, `ExtendVote` returns an error (`failed to find price for ...`) and
produces no vote-extension payload — for every plugged canonical-price policy
and every aggregator state left by the provider fetches. -/
theorem C4_missing_required_base_errors
    (providerPairs : List (String × List CurrencyPair))
    (computeOraclePrices : ProviderAggregator → Except Unit (List (String × Dec)))
    (computedPricesCache : List (Int × List (String × Dec)))
    (providerAgg : ProviderAggregator) (reqHeight : Int)
    (m : List (String × Dec)) (hok : computeOraclePrices providerAgg = .ok m)
    (base : String) (hreq : base ∈ requiredRatesOf providerPairs)
    (hmiss : m.lookup base = none) :
    ∃ b, extendVoteHandler providerPairs computeOraclePrices
        computedPricesCache providerAgg reqHeight = .errMissingPrice b := by
  simp only [extendVoteHandler, hok]
  cases hf : (requiredRatesOf providerPairs).find?
      (fun b => (m.lookup b).isNone) with
  | some b => exact ⟨b, rfl⟩
  | none =>
    exfalso
    have := List.find?_eq_none.mp hf base hreq
    simp [hmiss] at this

/-- Witness for C4: with the source's stub `computeOraclePrices` (which
returns an empty map) and one configured provider pair ATOM/USD, the handler
errors out instead of producing a payload. -/
theorem C4_witness :
    computeOraclePrices_src NewProviderAggregator = .ok []
    ∧ "ATOM" ∈ requiredRatesOf [("binance", [⟨"ATOM", "USD"⟩])]
    ∧ List.lookup "ATOM" ([] : List (String × Dec)) = none
    ∧ ∃ b, extendVoteHandler [("binance", [⟨"ATOM", "USD"⟩])]
        computeOraclePrices_src [] NewProviderAggregator 7 = .errMissingPrice b :=
  ⟨rfl, by decide, rfl,
    C4_missing_required_base_errors [("binance", [⟨"ATOM", "USD"⟩])]
      computeOraclePrices_src [] NewProviderAggregator 7 [] rfl "ATOM"
      (by decide) rfl⟩

/-- C5: when the canonical-price computation succeeds and covers every
required base asset — given the policy contract of spec section 4.3 step 5
that the policy only produces prices for required bases — `ExtendVote`
returns the serialized `OracleVoteExtension` whose height is the request
height and whose price map contains exactly the required bases (each required
base has a price, and no extraneous base does), after caching the computed
map under the request height. -/
theorem C5_success_payload_shape
    (providerPairs : List (String × List CurrencyPair))
    (computeOraclePrices : ProviderAggregator → Except Unit (List (String × Dec)))
    (computedPricesCache : List (Int × List (String × Dec)))
    (providerAgg : ProviderAggregator) (reqHeight : Int)
    (m : List (String × Dec)) (hok : computeOraclePrices providerAgg = .ok m)
    (hcover : ∀ base ∈ requiredRatesOf providerPairs, (m.lookup base).isSome)
    (hsub : ∀ kv ∈ m, kv.1 ∈ requiredRatesOf providerPairs) :
    extendVoteHandler providerPairs computeOraclePrices computedPricesCache
        providerAgg reqHeight
      = .resp (.valid ⟨reqHeight, m⟩) ((reqHeight, m) :: computedPricesCache)
    ∧ ∀ base, (m.lookup base).isSome ↔ base ∈ requiredRatesOf providerPairs := by
  constructor
  · simp only [extendVoteHandler, hok]
    have hf : (requiredRatesOf providerPairs).find?
        (fun b => (m.lookup b).isNone) = none := by
      rw [List.find?_eq_none]
      intro b hb
      simp only [Option.isNone_iff_eq_none]
      exact Option.isSome_iff_ne_none.mp (hcover b hb)
    rw [hf]
  · intro base
    constructor
    · intro hs
      obtain ⟨kv, hm, he⟩ := mem_fst_of_lookup_isSome hs
      exact he ▸ hsub kv hm
    · exact hcover base

/-- Witness for C5 at a concrete instantiation: one provider pair ATOM/USD
and a policy producing exactly an ATOM price yield the expected payload. -/
theorem C5_witness :
    extendVoteHandler [("binance", [⟨"ATOM", "USD"⟩])]
        (fun _ => .ok [("ATOM", decHundredths 1198)]) [] NewProviderAggregator 9
      = .resp (.valid ⟨9, [("ATOM", decHundredths 1198)]⟩)
          [(9, [("ATOM", decHundredths 1198)])]
    ∧ ∀ base, (List.lookup base [("ATOM", decHundredths 1198)]).isSome
        ↔ base ∈ requiredRatesOf [("binance", [⟨"ATOM", "USD"⟩])] :=
  C5_success_payload_shape [("binance", [⟨"ATOM", "USD"⟩])]
    (fun _ => .ok [("ATOM", decHundredths 1198)]) [] NewProviderAggregator 9
    [("ATOM", decHundredths 1198)] rfl (by decide) (by decide)

/-- C9 counterexample: the claim says that for EVERY input `PrepareProposal`
surfaces no error and returns an (empty) response.  On a commit-info with no
votes the aggregation divides by the zero total stake and panics, so the
handler produces no response at all. -/
theorem C9_counterexample_zero_votes_panics :
    prepareProposal ⟨[]⟩ = .panicked := by decide

/-- C9 (amended): on every input on which the stake-weighted aggregation does
not hit the zero-total-stake division panic, `PrepareProposal` surfaces no
error: if aggregation fails (a vote extension fails to decode) it returns an
empty response with no transactions, and otherwise a response whose single
transaction is the encoded `StakeWeightedPrices` record.  (Encoding the
record cannot fail for this struct type, so the encode-failure branch that
would likewise return an empty response is unreachable.) -/
theorem C9_amended_no_error_surfaced (ci : ExtendedCommitInfo)
    (h : computeStakeWeightedOraclePrices ci ≠ .panicDivByZero) :
    prepareProposal ci = .resp []
    ∨ ∃ m, computeStakeWeightedOraclePrices ci = .ok m
        ∧ prepareProposal ci = .resp [jsonMarshalSWP ⟨m, ci⟩] := by
  cases hc : computeStakeWeightedOraclePrices ci with
  | errDecode => exact Or.inl (by simp [prepareProposal, hc])
  | panicDivByZero => exact absurd hc h
  | ok m => exact Or.inr ⟨m, rfl, by simp [prepareProposal, hc]⟩

/-- Witness for C9's amended theorem at a concrete input: one vote of power 5
attesting 2.00 for ATOM; the response carries the injected record. -/
theorem C9_witness :
    computeStakeWeightedOraclePrices ⟨[scenarioVote "w" 5 (decHundredths 200)]⟩
        ≠ .panicDivByZero
    ∧ (prepareProposal ⟨[scenarioVote "w" 5 (decHundredths 200)]⟩ = .resp []
      ∨ ∃ m, computeStakeWeightedOraclePrices
            ⟨[scenarioVote "w" 5 (decHundredths 200)]⟩ = .ok m
          ∧ prepareProposal ⟨[scenarioVote "w" 5 (decHundredths 200)]⟩
              = .resp [jsonMarshalSWP ⟨m, ⟨[scenarioVote "w" 5 (decHundredths 200)]⟩⟩]) :=
  ⟨by decide,
    C9_amended_no_error_surfaced ⟨[scenarioVote "w" 5 (decHundredths 200)]⟩
      (by decide)⟩

/-! ### Order-independence of the stake-weighted aggregation (C6) -/

theorem addToBase_comm (m : List (String × Dec)) (b1 b2 : String) (x y : Dec) :
    addToBase (addToBase m b1 x) b2 y = addToBase (addToBase m b2 y) b1 x := by
  simp only [addToBase, List.map_map]
  congr 1
  funext kv
  rcases kv with ⟨k, v⟩
  simp only [Function.comp]
  by_cases h1 : k = b1
  · by_cases h2 : k = b2
    · subst h1; subst h2
      simp [Dec.Add, Int.add_right_comm]
    · subst h1
      simp [h2]
  · by_cases h2 : k = b2
    · subst h2
      simp [h1]
    · simp [h1, h2]

theorem applyVotePrices_cons (power : Int) (m : List (String × Dec))
    (kv : String × Dec) (t : List (String × Dec)) :
    applyVotePrices power m (kv :: t)
      = applyVotePrices power (addToBase m kv.1 (kv.2.MulInt64 power)) t := rfl

theorem applyVotePrices_addToBase (power : Int) (m : List (String × Dec))
    (l : List (String × Dec)) (b : String) (x : Dec) :
    applyVotePrices power (addToBase m b x) l
      = addToBase (applyVotePrices power m l) b x := by
  induction l generalizing m with
  | nil => rfl
  | cons kv t ih =>
    simp only [applyVotePrices_cons]
    rw [addToBase_comm]
    exact ih _

theorem applyVotePrices_comm (p1 p2 : Int) (m : List (String × Dec))
    (l1 l2 : List (String × Dec)) :
    applyVotePrices p2 (applyVotePrices p1 m l1) l2
      = applyVotePrices p1 (applyVotePrices p2 m l2) l1 := by
  induction l1 generalizing m with
  | nil => rfl
  | cons kv t ih =>
    simp only [applyVotePrices_cons]
    rw [ih, applyVotePrices_addToBase]

/-- One vote's effect on the running per-base totals (the body of the vote
loop, on a vote whose extension decodes; a non-decoding vote aborts the loop
and contributes nothing). -/
def stepSWP (acc : List (String × Dec)) (v : ExtendedVoteInfo) :
    List (String × Dec) :=
  match jsonUnmarshalOVE v.VoteExtension with
  | some voteExt => applyVotePrices v.Validator.Power acc voteExt.Prices
  | none => acc

theorem stepSWP_comm (acc : List (String × Dec)) (v w : ExtendedVoteInfo) :
    stepSWP (stepSWP acc v) w = stepSWP (stepSWP acc w) v := by
  unfold stepSWP
  cases jsonUnmarshalOVE v.VoteExtension <;>
    cases jsonUnmarshalOVE w.VoteExtension <;>
    simp [applyVotePrices_comm]

theorem foldl_perm_of_comm {α β : Type} (f : β → α → β)
    (hc : ∀ b x y, f (f b x) y = f (f b y) x) :
    ∀ {l l' : List α}, l.Perm l' → ∀ b, l.foldl f b = l'.foldl f b := by
  intro l l' hp
  induction hp with
  | nil => intro b; rfl
  | cons x _ ih => intro b; simp only [List.foldl]; exact ih _
  | swap x y l => intro b; simp only [List.foldl]; rw [hc b x y]
  | trans _ _ ih1 ih2 => intro b; rw [ih1, ih2]

/-- Normal form of the vote loop when every vote extension decodes: the final
division applied to the fold of the per-vote steps, with the total stake being
the sum of the validator powers. -/
theorem swpLoop_eq_finalize (votes : List ExtendedVoteInfo) :
    ∀ (t : Int) (acc : List (String × Dec)),
    (∀ v ∈ votes, (jsonUnmarshalOVE v.VoteExtension).isSome) →
    swpLoop votes t acc
      = finalizeQuo (votes.foldl stepSWP acc)
          (t + (votes.map fun v => v.Validator.Power).sum) := by
  induction votes with
  | nil => intro t acc _; simp [swpLoop]
  | cons v vs ih =>
    intro t acc hd
    have hv := hd v (List.mem_cons_self v vs)
    cases hve : jsonUnmarshalOVE v.VoteExtension with
    | none => rw [hve] at hv; simp at hv
    | some voteExt =>
      simp only [swpLoop, hve, List.foldl, stepSWP, List.map_cons, List.sum_cons]
      rw [ih _ _ fun w hw => hd w (List.mem_cons_of_mem v hw)]
      rw [Int.add_assoc]

/-- C6: for every list of votes that all deserialize successfully and every
permutation of that list, `computeStakeWeightedOraclePrices` returns the same
per-asset price mapping (exact equality — the accumulation is exact decimal
arithmetic, and both the total stake and each asset's weighted running total
are permutation-invariant sums). -/
theorem C6_aggregation_order_independent (ci : ExtendedCommitInfo)
    (votes2 : List ExtendedVoteInfo) (hp : ci.Votes.Perm votes2)
    (hd : ∀ v ∈ ci.Votes, (jsonUnmarshalOVE v.VoteExtension).isSome) :
    computeStakeWeightedOraclePrices ci
      = computeStakeWeightedOraclePrices ⟨votes2⟩ := by
  have hd2 : ∀ v ∈ votes2, (jsonUnmarshalOVE v.VoteExtension).isSome :=
    fun v hv => hd v (hp.mem_iff.mpr hv)
  unfold computeStakeWeightedOraclePrices
  rw [swpLoop_eq_finalize _ _ _ hd, swpLoop_eq_finalize _ _ _ hd2]
  rw [foldl_perm_of_comm stepSWP stepSWP_comm hp]
  rw [(hp.map fun v => v.Validator.Power).sum_eq]

/-- Witness for C6: swapping two concrete decodable votes of different powers
and prices leaves the aggregated mapping unchanged. -/
theorem C6_witness :
    (ExtendedCommitInfo.mk [scenarioVote "a" 3 (decHundredths 900),
        scenarioVote "b" 7 (decHundredths 1100)]).Votes.Perm
      [scenarioVote "b" 7 (decHundredths 1100),
        scenarioVote "a" 3 (decHundredths 900)]
    ∧ computeStakeWeightedOraclePrices
        ⟨[scenarioVote "a" 3 (decHundredths 900),
          scenarioVote "b" 7 (decHundredths 1100)]⟩
      = computeStakeWeightedOraclePrices
          ⟨[scenarioVote "b" 7 (decHundredths 1100),
            scenarioVote "a" 3 (decHundredths 900)]⟩ :=
  ⟨List.Perm.swap _ _ _,
    C6_aggregation_order_independent
      ⟨[scenarioVote "a" 3 (decHundredths 900),
        scenarioVote "b" 7 (decHundredths 1100)]⟩
      [scenarioVote "b" 7 (decHundredths 1100),
        scenarioVote "a" 3 (decHundredths 900)]
      (List.Perm.swap _ _ _) (by decide)⟩

/-! ### Codec round-trip (C7) -/

theorem ofDigits_replicate_zero (n : Nat) :
    Nat.ofDigits 10 (List.replicate n 0) = 0 := by
  induction n with
  | zero => rfl
  | succ k ih => simp [List.replicate, Nat.ofDigits_cons, ih]

theorem digits_len_le_of_lt_scale (m : Nat) (h : m < 10 ^ 18) :
    (Nat.digits 10 m).length ≤ 18 := by
  rcases Nat.eq_zero_or_pos m with hm | hm
  · subst hm; simp
  · rw [Nat.digits_len 10 m (by norm_num) (Nat.pos_iff_ne_zero.mp hm)]
    have := Nat.log_lt_of_lt_pow (Nat.pos_iff_ne_zero.mp hm) h
    omega

/-- Parsing a marshalled decimal recovers the decimal exactly: the 18-digit
zero-padded fractional part and the integer part reassemble the scaled value,
and the sign flag restores the sign. -/
theorem parseDec_marshalText (d : Dec) : d.marshalText.parseDec = some d := by
  unfold Dec.marshalText DecText.parseDec
  have hfr : d.val.natAbs % decScale < 10 ^ 18 :=
    Nat.mod_lt _ (by norm_num [decScale])
  have hlen : (Nat.digits 10 (d.val.natAbs % decScale)).length ≤ 18 :=
    digits_len_le_of_lt_scale _ hfr
  have hlen2 : (Nat.digits 10 (d.val.natAbs % decScale)
      ++ List.replicate (18 - (Nat.digits 10 (d.val.natAbs % decScale)).length)
          0).length = 18 := by
    simp only [List.length_append, List.length_replicate]
    omega
  simp only [hlen2, if_pos]
  have hval : Nat.ofDigits 10 (Nat.digits 10 (d.val.natAbs / decScale)) * decScale
      + Nat.ofDigits 10 (Nat.digits 10 (d.val.natAbs % decScale)
          ++ List.replicate
            (18 - (Nat.digits 10 (d.val.natAbs % decScale)).length) 0)
      = d.val.natAbs := by
    rw [Nat.ofDigits_append, ofDigits_replicate_zero, Nat.ofDigits_digits,
      Nat.ofDigits_digits, Nat.mul_comm (d.val.natAbs / decScale) decScale,
      Nat.mul_zero, Nat.add_zero]
    exact Nat.div_add_mod d.val.natAbs decScale
  rw [hval]
  by_cases hneg : d.val < 0
  · have h1 : (d.val.natAbs : Int) = -d.val :=
      Int.ofNat_natAbs_of_nonpos (le_of_lt hneg)
    simp [hneg, h1]
  · have h1 : (d.val.natAbs : Int) = d.val :=
      Int.natAbs_of_nonneg (not_lt.mp hneg)
    simp [hneg, h1]

theorem insertSorted_perm {α : Type} (kv : String × α)
    (l : List (String × α)) : (insertSorted kv l).Perm (kv :: l) := by
  induction l with
  | nil => exact List.Perm.refl _
  | cons x t ih =>
    unfold insertSorted
    by_cases h : kv.1 ≤ x.1
    · simp only [if_pos h]
      exact List.Perm.refl _
    · simp only [if_neg h]
      exact (ih.cons x).trans (List.Perm.swap kv x t)

theorem sortKeys_perm {α : Type} (l : List (String × α)) :
    (sortKeys l).Perm l := by
  induction l with
  | nil => exact List.Perm.refl _
  | cons kv t ih =>
    simp only [sortKeys, List.foldr] at ih ⊢
    exact (insertSorted_perm kv _).trans (ih.cons kv)

/-- Lookup in an association list with pairwise-distinct keys is invariant
under permutation of the entries. -/
theorem lookup_eq_of_perm {α : Type} {l l' : List (String × α)}
    (hp : l.Perm l') :
    ∀ (k : String), (l.map Prod.fst).Nodup → l.lookup k = l'.lookup k := by
  induction hp with
  | nil => intro k _; rfl
  | cons x p ih =>
    intro k hnd
    rcases x with ⟨kx, vx⟩
    simp only [List.map_cons, List.nodup_cons] at hnd
    by_cases hk : k = kx
    · simp [List.lookup, hk]
    · simp only [List.lookup, List.lookup_cons, beq_eq_false_iff_ne.mpr hk]
      exact ih k hnd.2
  | swap x y l =>
    intro k hnd
    rcases x with ⟨kx, vx⟩
    rcases y with ⟨ky, vy⟩
    simp only [List.map_cons, List.nodup_cons, List.mem_cons] at hnd
    have hyx : ky ≠ kx := fun he => hnd.1 (Or.inl he)
    by_cases h1 : k = ky
    · subst h1
      simp [List.lookup_cons, beq_eq_false_iff_ne.mpr hyx]
    · by_cases h2 : k = kx
      · subst h2
        simp [List.lookup_cons, beq_eq_false_iff_ne.mpr h1]
      · simp [List.lookup_cons, beq_eq_false_iff_ne.mpr h1,
          beq_eq_false_iff_ne.mpr h2]
  | trans p1 p2 ih1 ih2 =>
    intro k hnd
    rw [ih1 k hnd]
    exact ih2 k (((p1.map Prod.fst).nodup_iff).mp hnd)

theorem parseEntries_marshal (l : List (String × Dec)) :
    parseEntries (l.map fun kv => (kv.1, kv.2.marshalText)) = some l := by
  induction l with
  | nil => rfl
  | cons kv t ih =>
    rcases kv with ⟨k, d⟩
    simp [parseEntries, parseDec_marshalText, ih]

/-- C7: serializing any `OracleVoteExtension` — any height and any finite
price map (with pairwise-distinct asset keys, as a marshalled Go map always
has) — with the attestation codec and deserializing the result yields a value
equal to the original in the height field and in every entry of the price map
(the emitted object lists the keys in sorted order, so entry-wise equality is
stated through lookups). -/
theorem C7_codec_roundtrip (ove : OracleVoteExtension)
    (hnd : (ove.Prices.map Prod.fst).Nodup) :
    ∃ ove2, unmarshalOVEWire (marshalOVEWire ove) = some ove2
      ∧ ove2.Height = ove.Height
      ∧ ∀ k, ove2.Prices.lookup k = ove.Prices.lookup k := by
  refine ⟨⟨ove.Height, sortKeys ove.Prices⟩, ?_, rfl, ?_⟩
  · simp [unmarshalOVEWire, marshalOVEWire, parseEntries_marshal]
  · intro k
    exact lookup_eq_of_perm (sortKeys_perm ove.Prices) k
      (((sortKeys_perm ove.Prices).map Prod.fst).nodup_iff.mpr hnd)

/-- Witness for C7 at a concrete attestation holding a positive and a
negative arbitrary-precision price. -/
theorem C7_witness :
    ((OracleVoteExtension.mk 42 [("OSMO", ⟨-3⟩), ("ATOM", ⟨10 ^ 19 + 5⟩)]).Prices.map
        Prod.fst).Nodup
    ∧ ∃ ove2,
        unmarshalOVEWire (marshalOVEWire
            ⟨42, [("OSMO", ⟨-3⟩), ("ATOM", ⟨10 ^ 19 + 5⟩)]⟩) = some ove2
        ∧ ove2.Height = (42 : Int)
        ∧ ∀ k, ove2.Prices.lookup k
            = List.lookup k [("OSMO", (⟨-3⟩ : Dec)), ("ATOM", ⟨10 ^ 19 + 5⟩)] :=
  ⟨by decide,
    C7_codec_roundtrip ⟨42, [("OSMO", ⟨-3⟩), ("ATOM", ⟨10 ^ 19 + 5⟩)]⟩ (by decide)⟩
